import Mathlib

/-!
Verification of the medjournal-backend user listing / search subsystem.

The definitions below are a shallow embedding of the JavaScript source:
* src/api/src/utils/constants.js (SearchQuery / performSearch /
  prepareSearchableObject, identical copies in src/unnamed/part_004),
* src/api/src/utils/functions.js (getProfileData / processUserRecord /
  isNotAdmin),
* src/api/src/controllers/getAllUsersForAdmin.js (the listing handler,
  the two module-level caches, isCacheValid and cleanupCaches).

External collaborators (the Firebase identity provider, the Firestore
profile store, and the fuzzysort npm library) are parameters of the
embedding; the fuzzysort matcher is additionally given one concrete
model (fuzzyGo) where a claim needs its documented behaviour.
-/

namespace MedJournal

/-! ### Generic JS-flavoured helpers -/

/-- First-match association lookup, modelling Map.get / object property read. -/
def mapGet [DecidableEq K] (m : List (K × V)) (k : K) : Option V :=
  match m with
  | [] => none
  | (k', v) :: rest => if k = k' then some v else mapGet rest k

/-- Association update, modelling Map.set / JS property assignment:
an existing key keeps its position (insertion order), a new key is
appended at the end. -/
def mapSet [DecidableEq K] (m : List (K × V)) (k : K) (v : V) : List (K × V) :=
  match m with
  | [] => [(k, v)]
  | (k', v') :: rest => if k = k' then (k, v) :: rest else (k', v') :: mapSet rest k v

/-- Whether the char list starts with the needle. -/
def charsPrefixOf : List Char → List Char → Bool
  | [], _ => true
  | _ :: _, [] => false
  | a :: as, b :: bs => a = b && charsPrefixOf as bs

/-- Whether the needle occurs contiguously in the haystack. -/
def charsInfixOf (needle : List Char) : List Char → Bool
  | [] => charsPrefixOf needle []
  | c :: rest' =>
    charsPrefixOf needle (c :: rest') || charsInfixOf needle rest'

/-- Whether the first char list occurs as a (not necessarily contiguous)
subsequence of the second. -/
def charsSubseq : List Char → List Char → Bool
  | [], _ => true
  | _ :: _, [] => false
  | a :: as, b :: bs => if a = b then charsSubseq as bs else charsSubseq (a :: as) bs

/-- JS String.prototype.toLowerCase (character-wise). -/
def jsToLower (s : String) : String :=
  String.mk (s.toList.map Char.toLower)

/-- JS String.prototype.trim. -/
def jsTrim (s : String) : String :=
  String.mk (((s.toList.dropWhile Char.isWhitespace).reverse.dropWhile
    Char.isWhitespace).reverse)

/-- JS String.prototype.includes. -/
def strIncludes (hay needle : String) : Bool :=
  charsInfixOf needle.toList hay.toList

/-- JS Array.prototype.slice index resolution: negative indices count from
the end, results are clamped to [0, len]. -/
def jsSliceIdx (len : Nat) (i : Int) : Nat :=
  if i < 0 then ((len : Int) + i).toNat else min i.toNat len

/-- JS Array.prototype.slice(s, e). -/
def jsSlice (l : List α) (s e : Int) : List α :=
  (l.take (jsSliceIdx l.length e)).drop (jsSliceIdx l.length s)

/-- JS parseInt on a string: skip leading whitespace, optional sign, then
the longest digit prefix; none models NaN (no digits). -/
def jsParseInt (s : String) : Option Int :=
  let chars := s.toList.dropWhile (fun c => c = ' ' || c = '\t' || c = '\n')
  let (neg, digits) :=
    match chars with
    | '-' :: rest => (true, rest)
    | '+' :: rest => (false, rest)
    | rest => (false, rest)
  let ds := digits.takeWhile Char.isDigit
  if ds.isEmpty then none
  else
    let n : Nat := ds.foldl (fun acc c => acc * 10 + (c.toNat - '0'.toNat)) 0
    some (if neg then -(n : Int) else (n : Int))

/-- The handler's page computation: parseInt(body.page) || 0.
An absent field, an unparsable string, and a string parsing to 0 all
yield page 0. -/
def jsParsePage (f : Option String) : Int :=
  match f with
  | none => 0
  | some s =>
    match jsParseInt s with
    | none => 0
    | some n => n

/-! ### JS values

JavaScript-like values as they occur in the user objects this backend
builds and searches: null/undefined (conflated), booleans, numbers,
strings, Firestore Timestamp / Date instances (opaque; modelled, like a
Date, as an object without own enumerable properties), arrays and
objects. Objects are ordered field lists, matching JS insertion-order
iteration of the non-numeric keys used throughout this code base. -/

mutual
inductive JValue where
  | vnull : JValue
  | vbool : Bool → JValue
  | vnum : Int → JValue
  | vstr : String → JValue
  | vtimestamp : Nat → JValue
  | varr : JList → JValue
  | vobj : JFields → JValue
deriving DecidableEq
inductive JList where
  | nil : JList
  | cons : JValue → JList → JList
deriving DecidableEq
inductive JFields where
  | nil : JFields
  | cons : String → JValue → JFields → JFields
deriving DecidableEq
end

/-- JS truthiness of a value. -/
def jsTruthy : JValue → Bool
  | .vnull => false
  | .vbool b => b
  | .vnum n => n ≠ 0
  | .vstr s => s ≠ ""
  | .vtimestamp _ => true
  | .varr _ => true
  | .vobj _ => true

-- A simple model of JSON.stringify, used only for the dedup fallback key
-- and the search cache key; any injective-enough serialization serves.
mutual
def stringifyVal : JValue → String
  | .vnull => "null"
  | .vbool b => if b then "true" else "false"
  | .vnum n => toString n
  | .vstr s => "\x22" ++ s ++ "\x22"
  | .vtimestamp n => "\x7bts:" ++ toString n ++ "\x7d"
  | .varr items => "[" ++ stringifyList items ++ "]"
  | .vobj fields => "\x7b" ++ stringifyFields fields ++ "\x7d"
def stringifyList : JList → String
  | .nil => ""
  | .cons v .nil => stringifyVal v
  | .cons v rest => stringifyVal v ++ "," ++ stringifyList rest
def stringifyFields : JFields → String
  | .nil => ""
  | .cons k v .nil => "\x22" ++ k ++ "\x22:" ++ stringifyVal v
  | .cons k v rest => "\x22" ++ k ++ "\x22:" ++ stringifyVal v ++ "," ++ stringifyFields rest
end

/-- Field read, modelling obj.key (undefined when absent, here vnull). -/
def jsGetField (fields : JFields) (key : String) : JValue :=
  match fields with
  | .nil => .vnull
  | .cons k v rest => if key = k then v else jsGetField rest key

/-! ### prepareSearchableObject (constants.js lines 96-161 / part_004 98-161) -/

/-- The `searchable` accumulator: dotted path, lowercased text. -/
abbrev Searchable := List (String × String)

/-- processValue inside prepareSearchableObject: null/undefined map to the
empty string, booleans and numbers are stringified, strings lowercased,
everything else yields the empty string. -/
def processValue : JValue → String
  | .vnull => ""
  | .vbool b => if b then "true" else "false"
  | .vnum n => toString n
  | .vstr s => jsToLower s
  | _ => ""

/-- A field name excluded from flattening: contains "date"
(case-insensitive) or is exactly password / token. -/
def excludedKey (k : String) : Bool :=
  strIncludes (jsToLower k) "date" || k = "password" || k = "token"

/-- The flatten skip test: Timestamp/Date-typed values, excluded field
names (functions do not occur in these values). -/
def skipField (k : String) (v : JValue) : Bool :=
  (match v with | .vtimestamp _ => true | _ => false) || excludedKey k

/-- Object.values(...).join(' '). -/
def joinSp (l : List String) : String :=
  String.intercalate " " l

mutual
/-- flatten(current, pfx): walks the fields in order, threading the shared
`searchable` accumulator exactly as the JS closure mutates it. -/
def flattenFields (sb : Searchable) (pfx : String) : JFields → Searchable
  | .nil => sb
  | .cons key value rest =>
    let newKey := if pfx = "" then key else pfx ++ "." ++ key
    if skipField key value then flattenFields sb pfx rest
    else
      match value with
      | .varr items =>
        let p := flattenArray sb items
        flattenFields (mapSet p.1 newKey (joinSp (p.2.filter (· ≠ "")))) pfx rest
      | .vobj fields =>
        flattenFields (flattenFields sb newKey fields) pfx rest
      | v =>
        let pv := processValue v
        flattenFields (if pv ≠ "" then mapSet sb newKey pv else sb) pfx rest

/-- The array branch: each object item is flattened into the shared
accumulator with an empty path and contributes the join of every value
accumulated so far (Object.values(flatten(item)).join(' ')); an array
item is iterated like an object whose keys are its indices; a
Timestamp/Date item contributes the join of the current accumulator
(it has no own enumerable fields); primitives go through processValue. -/
def flattenArray (sb : Searchable) : JList → (Searchable × List String)
  | .nil => (sb, [])
  | .cons item rest =>
    match item with
    | .vobj fields =>
      let sb' := flattenFields sb "" fields
      let s := joinSp (sb'.map Prod.snd)
      let p := flattenArray sb' rest
      (p.1, s :: p.2)
    | .varr items =>
      let sb' := flattenIndexed sb 0 items
      let s := joinSp (sb'.map Prod.snd)
      let p := flattenArray sb' rest
      (p.1, s :: p.2)
    | .vtimestamp _ =>
      let s := joinSp (sb.map Prod.snd)
      let p := flattenArray sb rest
      (p.1, s :: p.2)
    | v =>
      let p := flattenArray sb rest
      (p.1, processValue v :: p.2)

/-- flatten applied to an array value: for-in iterates its indices "0",
"1", ... as keys with an empty prefix; index keys never hit the name
exclusions, so only Timestamp/Date values are skipped. -/
def flattenIndexed (sb : Searchable) (i : Nat) : JList → Searchable
  | .nil => sb
  | .cons item rest =>
    let key := toString i
    match item with
    | .vtimestamp _ => flattenIndexed sb (i + 1) rest
    | .varr items =>
      let p := flattenArray sb items
      flattenIndexed (mapSet p.1 key (joinSp (p.2.filter (· ≠ "")))) (i + 1) rest
    | .vobj fields =>
      flattenIndexed (flattenFields sb key fields) (i + 1) rest
    | v =>
      let pv := processValue v
      flattenIndexed (if pv ≠ "" then mapSet sb key pv else sb) (i + 1) rest
end

/-- prepareSearchableObject: flatten, then append the synthetic all key,
the space-join of every non-empty accumulated value. -/
def prepareSearchableObject (obj : JFields) : Searchable :=
  let flattened := flattenFields [] "" obj
  mapSet flattened "all" (joinSp ((flattened.map Prod.snd).filter (· ≠ "")))

/-! ### performSearch / SearchQuery (constants.js lines 103-186 / part_004 163-250) -/

/-- One fuzzysort hit: the index of the matched entry in the passed array
and its relevance score. -/
structure SearchHit where
  idx : Nat
  score : Int
deriving DecidableEq

/-- The fuzzysort interface as used here: fuzzysort.go(query, data,
key: searchable.all) only reads each entry's all string and returns
hits into that array. The library is external, so it is a parameter. -/
abbrev Matcher := String → List String → List SearchHit

/-- A search result: the original object spread together with its
searchScore. -/
structure ScoredItem where
  original : JFields
  searchScore : Int
deriving DecidableEq

/-- The all entry of a searchable map. -/
def allOf (sb : Searchable) : String :=
  match mapGet sb "all" with
  | some s => s
  | none => ""

/-- performSearch: guard empty query / empty data, flatten every item,
run the matcher on the all fields, and fall back to a plain substring
scan over every flattened field (score 0) only when the matcher returns
nothing. -/
def performSearch (go : Matcher) (searchQuery : String) (data : List JFields) :
    List ScoredItem :=
  if searchQuery = "" ∨ data = [] then []
  else
    let searchableData := data.map (fun item => (item, prepareSearchableObject item))
    let query := jsTrim (jsToLower searchQuery)
    let results := go query (searchableData.map (fun p => allOf p.2))
    if results = [] then
      (searchableData.filter
        (fun p => (p.2.map Prod.snd).any (fun v => strIncludes v query))).map
        (fun p => { original := p.1, searchScore := 0 })
    else
      results.filterMap
        (fun h => (searchableData[h.idx]?).map
          (fun p => { original := p.1, searchScore := h.score }))

/-- The dedup key: item.uid when truthy, otherwise the serialized item
(JS keys Maps by value; the serialized fallback is tagged by living in
the string constructor). -/
def dedupKey (it : ScoredItem) : JValue :=
  let u := jsGetField it.original "uid"
  if jsTruthy u then u
  else .vstr (stringifyVal (.vobj it.original) ++ "#" ++ toString it.searchScore)

/-- One step of the dedup loop: keep the entry with the strictly larger
searchScore (scores are always set, so the JS || 0 is the identity). -/
def dedupStep (m : List (JValue × ScoredItem)) (item : ScoredItem) :
    List (JValue × ScoredItem) :=
  let key := dedupKey item
  match mapGet m key with
  | none => mapSet m key item
  | some existing =>
    if existing.searchScore < item.searchScore then mapSet m key item else m

/-- The dedup Map, built in insertion order. -/
def dedupFold (items : List ScoredItem) : List (JValue × ScoredItem) :=
  items.foldl dedupStep []

/-- Stable insertion into a descending-by-score list (an earlier element
stays in front of later elements with an equal score, as V8's stable
sort does with the comparator b.searchScore - a.searchScore). -/
def insertDesc (a : ScoredItem) : List ScoredItem → List ScoredItem
  | [] => [a]
  | b :: l => if b.searchScore ≤ a.searchScore then a :: b :: l else b :: insertDesc a l

/-- Stable sort by searchScore descending. -/
def sortByScoreDesc : List ScoredItem → List ScoredItem
  | [] => []
  | a :: l => insertDesc a (sortByScoreDesc l)

/-- The normalized term list: drop falsy entries, then trim. -/
def normalizeTerms (search : List String) : List String :=
  (search.filter (fun s => s ≠ "")).map jsTrim

/-- The concatenation of the per-term results. -/
def allTermResults (go : Matcher) (search : List String) (searchFrom : List JFields) :
    List ScoredItem :=
  (normalizeTerms search).flatMap (fun term => performSearch go term searchFrom)

/-- SearchQuery: per-term search, dedup by uid keeping the max score,
sort by score descending. -/
def SearchQuery (go : Matcher) (search : List String) (searchFrom : List JFields) :
    List ScoredItem :=
  if searchFrom = [] then []
  else
    if normalizeTerms search = [] then []
    else
      sortByScoreDesc ((dedupFold (allTermResults go search searchFrom)).map Prod.snd)

/-- Modelled from the spec: the external typo-tolerant fuzzy matcher
(the fuzzysort npm library, not part of this repository). Per the spec
it is an approximate substring-ranking matcher; it can only match a
query whose characters occur, in order, in the target text, so it is
modelled as subsequence containment, with score 0 (above the permissive
threshold) and the result count capped at the limit of 100 used by the
caller. An empty query yields no hits. -/
def fuzzyGo : Matcher := fun query alls =>
  if query = "" then []
  else
    (((alls.enum).filter
      (fun p => charsSubseq query.toList p.2.toList)).map
      (fun p => { idx := p.1, score := 0 })).take 100

/-! ### Record projector (functions.js lines 27-85) -/

def ADMIN_ROLE : String := "admin@medjournal"

structure UserMetadata where
  creationTime : String
  lastSignInTime : String
deriving DecidableEq

structure CustomClaims where
  role : Option String
  isAdmin : Option Bool
  admin : Option Bool
deriving DecidableEq

/-- A raw identity-provider user record. metadata none models a malformed
record: userRecord.metadata.creationTime then throws. -/
structure UserRecordRaw where
  uid : String
  email : Option String
  displayName : Option String
  disabled : Bool
  emailVerified : Bool
  customClaims : Option CustomClaims
  metadata : Option UserMetadata
deriving DecidableEq

/-- The Firestore profile store read firestore.collection(role).doc(uid):
it can throw (error), find no document (ok none) or produce the document
data (ok (some doc)). External collaborator, hence a parameter. -/
abbrev ProfileFetcher := String → String → Except Unit (Option JFields)

def optStr : Option String → JValue
  | none => .vnull
  | some s => .vstr s

def optBool : Option Bool → JValue
  | none => .vnull
  | some b => .vbool b

/-- JS a || b. -/
def jsOr (a b : JValue) : JValue :=
  if jsTruthy a then a else b

/-- getProfileData (functions.js 27-40): only non-admin truthy roles are
looked up; a missing document or a thrown store error both yield null,
the catch never lets the error escape. -/
def getProfileData (fetch : ProfileFetcher) (uid : String) (role : JValue) :
    Option JFields :=
  if jsTruthy role ∧ role ≠ .vstr ADMIN_ROLE then
    match role with
    | .vstr r =>
      match fetch uid r with
      | .ok (some doc) => some doc
      | .ok none => none
      | .error _ => none
    | _ => none
  else none

/-- JS property assignment obj.key = v on an ordered field list. -/
def jfSet (fields : JFields) (key : String) (v : JValue) : JFields :=
  match fields with
  | .nil => .cons key v .nil
  | .cons k w rest =>
    if key = k then .cons k v rest else .cons k w (jfSet rest key v)

/-- processUserRecord (functions.js 47-72): build the user view object in
JS insertion order; a record without metadata throws inside the try and
is turned into null by the catch. The profile fetch cannot throw out of
getProfileData, so it never drops a record. -/
def processUserRecord (fetch : ProfileFetcher) (r : UserRecordRaw) :
    Option JFields :=
  match r.metadata with
  | none => none
  | some md =>
    let role : JValue :=
      match r.customClaims with
      | none => .vnull
      | some c => optStr c.role
    let claimsIsAdmin : JValue :=
      match r.customClaims with
      | none => .vnull
      | some c => optBool c.isAdmin
    let claimsAdmin : JValue :=
      match r.customClaims with
      | none => .vnull
      | some c => optBool c.admin
    let isAdmin := jsOr claimsIsAdmin claimsAdmin
    let base : JFields :=
      .cons "uid" (.vstr r.uid) (.cons "email" (optStr r.email)
        (.cons "displayName" (optStr r.displayName)
          (.cons "disabled" (.vbool r.disabled)
            (.cons "role" role
              (.cons "isAdmin" isAdmin
                (.cons "createdAt" (.vstr md.creationTime)
                  (.cons "lastSignIn" (.vstr md.lastSignInTime)
                    (.cons "emailVerified" (.vbool r.emailVerified) .nil))))))))
    if jsTruthy role ∧ ¬ jsTruthy isAdmin then
      some (jfSet base "profile"
        (match getProfileData fetch r.uid role with
         | some doc => .vobj doc
         | none => .vnull))
    else some base

/-- The batch projection at both call sites: map processUserRecord over
the page and filter the nulls out. -/
def projectBatch (fetch : ProfileFetcher) (records : List UserRecordRaw) :
    List JFields :=
  (records.map (processUserRecord fetch)).filterMap id

/-- The authenticated caller attached by the auth middleware. -/
structure AuthUser where
  role : String
deriving DecidableEq

/-- isNotAdmin (functions.js 74-85): true exactly when the 403 Forbidden
response is written (no authenticated user, or a role different from the
admin role); on an admin it returns false. -/
def isNotAdminCheck (user : Option AuthUser) : Bool :=
  match user with
  | none => true
  | some u => u.role ≠ ADMIN_ROLE

/-! ### Listing orchestrator (getAllUsersForAdmin.js) -/

/-- One identity-provider page. -/
structure ProviderPage where
  users : List UserRecordRaw
  pageToken : Option String
deriving DecidableEq

/-- auth.listUsers(pageSize, token?) abstracted as a deterministic
function. -/
abbrev Provider := Nat → Option String → ProviderPage

/-- JS truthiness of a continuation token. -/
def tokTruthy : Option String → Bool
  | none => false
  | some s => s ≠ ""

/-- A value as the JS Maps hold it. The handler stores bare token strings
and bare result arrays, so their .timestamp property is absent (none);
insertedAt is model-level instrumentation recording the wall-clock time
of the insertion, never read by any embedded code. -/
structure StoredEntry (α : Type) where
  value : α
  timestampField : Option Nat
  insertedAt : Nat
deriving DecidableEq

/-- The two module-level caches of getAllUsersForAdmin.js. -/
structure CacheState where
  pageTokens : List (Int × StoredEntry String)
  searchResults : List (String × StoredEntry (List ScoredItem))
deriving DecidableEq

/-- Five minutes in milliseconds. -/
def TTL_MS : Nat := 5 * 60 * 1000

/-- The age test shared by isCacheValid and cleanupCaches:
now - value.timestamp compared against the TTL. A bare string or array
has no .timestamp, the subtraction yields NaN, and every NaN comparison
is false. -/
def sweepExpired (timestampField : Option Nat) (now : Nat) : Bool :=
  match timestampField with
  | none => false
  | some t => (now : Int) - (t : Int) > (TTL_MS : Int)

/-- isCacheValid (getAllUsersForAdmin.js 17-20): entry present and
Date.now() - entry.timestamp < TTL (false when .timestamp is absent,
NaN). Defined as in the source; no call site exists. -/
def isCacheValid [DecidableEq K] (cache : List (K × StoredEntry α)) (now : Nat)
    (key : K) : Bool :=
  match mapGet cache key with
  | none => false
  | some e =>
    match e.timestampField with
    | none => false
    | some t => (now : Int) - (t : Int) < (TTL_MS : Int)

/-- cleanupCaches (getAllUsersForAdmin.js 25-41): delete every entry
whose .timestamp is older than the TTL from both maps. -/
def cleanupCaches (now : Nat) (st : CacheState) : CacheState :=
  { searchResults := st.searchResults.filter
      (fun e => !(sweepExpired e.2.timestampField now)),
    pageTokens := st.pageTokens.filter
      (fun e => !(sweepExpired e.2.timestampField now)) }

/-- The search-path response payload. -/
structure SearchData where
  users : List ScoredItem
  totalCount : Nat
  currentPage : Int
  totalPages : Nat
  hasNextPage : Bool
deriving DecidableEq

/-- The listing-path response payload. -/
structure ListData where
  users : List JFields
  totalCount : Nat
  currentPage : Int
  pageTokens : List Bool
  hasNextPage : Bool
deriving DecidableEq

/-- One response write attempted on res; the client observes the first.
hung is a model marker meaning the full-population loop had not finished
within the supplied fuel (the JS loop is still running). -/
inductive Response where
  | forbidden : Response
  | invalidPage : Response
  | searchOk : SearchData → Response
  | listOk : ListData → Response
  | hung : Response
deriving DecidableEq

/-- The observable effects of one request: the response writes in order,
the final cache state, and the (pageSize, token) of every
auth.listUsers call in order. -/
structure Outcome where
  writes : List Response
  state : CacheState
  calls : List (Nat × Option String)
deriving DecidableEq

def listToJList : List JValue → JList
  | [] => .nil
  | v :: rest => .cons v (listToJList rest)

/-- JSON.stringify(search), the search cache key. -/
def serializeTerms (terms : List String) : String :=
  stringifyVal (.varr (listToJList (terms.map .vstr)))

/-- The do..while full-population fetch of the search path: batches of
1000, following every truthy continuation token. fuel bounds the model
recursion; running out returns none (the JS loop would still be
running). Also logs every provider call. -/
def fetchAllUsers (provider : Provider) (fetch : ProfileFetcher) :
    Nat → Option String → List JFields → List (Nat × Option String) →
    Option (List JFields) × List (Nat × Option String)
  | 0, _, _, log => (none, log)
  | fuel + 1, tok, acc, log =>
    let batch := provider 1000 tok
    let log' := log ++ [(1000, tok)]
    let acc' := acc ++ projectBatch fetch batch.users
    if tokTruthy batch.pageToken then
      fetchAllUsers provider fetch fuel batch.pageToken acc' log'
    else (some acc', log')

/-- The pagination of the cached ranked list (lines 87-103). -/
def mkSearchData (results : List ScoredItem) (page : Int) : SearchData :=
  let startIndex := page * 10
  { users := jsSlice results startIndex (startIndex + 10),
    totalCount := results.length,
    currentPage := page,
    totalPages := (results.length + 9) / 10,
    hasNextPage := decide (startIndex + 10 < (results.length : Int)) }

/-- The search path (lines 56-103): result-cache lookup, on a miss the
full-population fetch, SearchQuery, cache store (a bare array: no
.timestamp property), then the in-memory page slice. -/
def runSearch (go : Matcher) (provider : Provider) (fetch : ProfileFetcher)
    (fuel : Nat) (now : Nat) (terms : List String) (page : Int)
    (st : CacheState) : Outcome :=
  let cacheKey := serializeTerms terms
  match mapGet st.searchResults cacheKey with
  | some entry =>
    { writes := [.searchOk (mkSearchData entry.value page)], state := st, calls := [] }
  | none =>
    match fetchAllUsers provider fetch fuel none [] [] with
    | (none, log) => { writes := [.hung], state := st, calls := log }
    | (some allUsers, log) =>
      let allSearchResults := SearchQuery go terms allUsers
      let entry : StoredEntry (List ScoredItem) :=
        { value := allSearchResults, timestampField := none, insertedAt := now }
      let st' : CacheState :=
        { st with searchResults := mapSet st.searchResults cacheKey entry }
      { writes := [.searchOk (mkSearchData allSearchResults page)],
        state := st', calls := log }

/-- Lines 122-152: store a truthy continuation token under page+1 (again
a bare string: no .timestamp property), project the page, build the
pageTokens indicator array over 0..page+1 from the updated map, and
answer. -/
def listAfterFetch (fetch : ProfileFetcher) (now : Nat) (page : Int)
    (st : CacheState) (res : ProviderPage) (calls : List (Nat × Option String)) :
    Outcome :=
  let entry : StoredEntry String :=
    { value := res.pageToken.getD "", timestampField := none, insertedAt := now }
  let st' : CacheState :=
    if tokTruthy res.pageToken then
      { st with pageTokens := mapSet st.pageTokens (page + 1) entry }
    else st
  let users := projectBatch fetch res.users
  let indicator :=
    (List.range (page + 2).toNat).map
      (fun i => (mapGet st'.pageTokens (i : Int)).isSome)
  { writes := [.listOk
      { users := users, totalCount := users.length, currentPage := page,
        pageTokens := indicator, hasNextPage := tokTruthy res.pageToken }],
    state := st', calls := calls }

/-- The regular listing path (lines 106-152): page 0 starts the provider
stream with no token; otherwise the cursor cache must hold a truthy
token for the page, else 400 Invalid Page without touching the
provider. -/
def runListing (provider : Provider) (fetch : ProfileFetcher) (now : Nat)
    (page : Int) (st : CacheState) : Outcome :=
  if page = 0 then
    listAfterFetch fetch now page st (provider 10 none) [(10, none)]
  else
    match mapGet st.pageTokens page with
    | none => { writes := [.invalidPage], state := st, calls := [] }
    | some entry =>
      if entry.value = "" then
        { writes := [.invalidPage], state := st, calls := [] }
      else
        listAfterFetch fetch now page st (provider 10 (some entry.value))
          [(10, some entry.value)]

/-- One incoming request: the caller the auth middleware attached, the
body's search array and page field. -/
structure Req where
  user : Option AuthUser
  search : Option (List String)
  pageField : Option String
deriving DecidableEq

/-- The listing controller (getAllUsersForAdmin.js module.exports).
isNotAdmin writes the 403 Forbidden response for a non-admin caller, but
its return value is discarded at line 54, so execution continues into
the search or listing path regardless. -/
def handler (go : Matcher) (provider : Provider) (fetch : ProfileFetcher)
    (fuel : Nat) (now : Nat) (req : Req) (st : CacheState) : Outcome :=
  let page := jsParsePage req.pageField
  let fwrites := if isNotAdminCheck req.user then [Response.forbidden] else []
  let out :=
    match req.search with
    | some terms =>
      if terms ≠ [] then runSearch go provider fetch fuel now terms page st
      else runListing provider fetch now page st
    | none => runListing provider fetch now page st
  { out with writes := fwrites ++ out.writes }

/-- The first search response among the writes, if any. -/
def firstSearchOk (out : Outcome) : Option SearchData :=
  out.writes.findSome? (fun w => match w with | .searchOk d => some d | _ => none)

/-- A request with no search to run (body.search absent or an empty
array). -/
def noSearch (req : Req) : Prop :=
  req.search = none ∨ req.search = some []

/-! ### Concrete instances used by several claim checks -/

/-- The empty initial cache state. -/
def emptyState : CacheState := { pageTokens := [], searchResults := [] }

/-- A raw provider record of an ordinary (non-admin) patient. -/
def recPatient : UserRecordRaw :=
  { uid := "u1", email := some "pat@example.com", displayName := some "Pat",
    disabled := false, emailVerified := true,
    customClaims := some { role := some "patients", isAdmin := some false, admin := some false },
    metadata := some { creationTime := "c1", lastSignInTime := "l1" } }

/-- A provider with two pages: the first holds the patient record and a
continuation token, the second is empty. -/
def provTwoPages : Provider := fun _ tok =>
  match tok with
  | none => { users := [recPatient], pageToken := some "t1" }
  | some _ => { users := [], pageToken := none }

/-- A profile store whose every document reports isProfileComplete =
false. -/
def fetchIncomplete : ProfileFetcher := fun _ _ =>
  .ok (some (.cons "isProfileComplete" (.vbool false) .nil))

/-- A listing request (no search term) by a restricted-role caller: a
patient, not an admin. -/
def reqNonAdminList : Req :=
  { user := some { role := "patients" }, search := none, pageField := none }

/-! ### Basic lemmas about the association-map model -/

theorem mapGet_mapSet_self [DecidableEq K] (m : List (K × V)) (k : K) (v : V) :
    mapGet (mapSet m k v) k = some v := by
  induction m with
  | nil => simp [mapGet, mapSet]
  | cons p rest ih =>
    by_cases h : k = p.1
    · simp [mapGet, mapSet, h]
    · simpa [mapGet, mapSet, h] using ih

theorem mapGet_mapSet_ne [DecidableEq K] (m : List (K × V)) (k k' : K) (v : V)
    (h : k' ≠ k) : mapGet (mapSet m k v) k' = mapGet m k' := by
  induction m with
  | nil => simp [mapGet, mapSet, h]
  | cons p rest ih =>
    by_cases hk : k = p.1
    · subst hk
      simp [mapGet, mapSet, h]
    · by_cases hk' : k' = p.1
      · simp [mapGet, mapSet, hk, hk']
      · simpa [mapGet, mapSet, hk, hk'] using ih

/-! ### Claim C1 -/

/-- C1: counterexample. A caller with the restricted role patients and no
search term receives (after the ineffective Forbidden write) the raw
provider page: its single user carries the caller's own role, not the
complementary doctors role, and a profile with isProfileComplete =
false, and even though the provider returned a continuation token with
fewer than PAGE_SIZE accumulated users, exactly one provider fetch was
made — there is no filtering and no accumulation loop. -/
theorem c1_counterexample :
    isNotAdminCheck reqNonAdminList.user = true
  ∧ reqNonAdminList.search = none
  ∧ (handler fuzzyGo provTwoPages fetchIncomplete 5 0 reqNonAdminList emptyState).writes =
      [Response.forbidden,
       Response.listOk
         { users := (projectBatch fetchIncomplete [recPatient]),
           totalCount := 1, currentPage := 0,
           pageTokens := [false, true], hasNextPage := true }]
  ∧ jsGetField ((projectBatch fetchIncomplete [recPatient]).headD .nil) "role" =
      .vstr "patients"
  ∧ (match jsGetField ((projectBatch fetchIncomplete [recPatient]).headD .nil) "profile" with
     | .vobj p => jsGetField p "isProfileComplete"
     | _ => .vnull) = .vbool false
  ∧ (handler fuzzyGo provTwoPages fetchIncomplete 5 0 reqNonAdminList emptyState).calls =
      [(10, none)]
  ∧ (provTwoPages 10 none).pageToken = some "t1" := by
  decide

/-- C1 as amended: a no-search listing request by a restricted
(non-admin) caller gets the Forbidden write, but the handler continues
and behaves exactly like the unrestricted listing path: for page 0 it
makes exactly one provider call of PAGE_SIZE with no token and returns
that page's projected users without any role or profile-completeness
filtering and without following the continuation token further. -/
theorem c1_amended (go : Matcher) (provider : Provider) (fetch : ProfileFetcher)
    (fuel now : Nat) (st : CacheState) (u : Option AuthUser)
    (s : Option (List String)) (f : Option String)
    (hu : isNotAdminCheck u = true)
    (hs : noSearch { user := u, search := s, pageField := f })
    (hp : jsParsePage f = 0) :
    (handler go provider fetch fuel now { user := u, search := s, pageField := f } st).writes =
      Response.forbidden :: (runListing provider fetch now 0 st).writes
  ∧ (handler go provider fetch fuel now { user := u, search := s, pageField := f } st).calls =
      [(10, none)]
  ∧ (runListing provider fetch now 0 st).writes =
      [Response.listOk
        { users := projectBatch fetch (provider 10 none).users,
          totalCount := (projectBatch fetch (provider 10 none).users).length,
          currentPage := 0,
          pageTokens := (List.range 2).map
            (fun i => (mapGet (listAfterFetch fetch now 0 st (provider 10 none) [(10, none)]).state.pageTokens (i : Int)).isSome),
          hasNextPage := tokTruthy (provider 10 none).pageToken }] := by
  rcases hs with h | h <;> subst h <;>
    simp [handler, hu, hp, runListing, listAfterFetch, projectBatch]

/-- C1 amended, witness at the concrete counterexample inputs. -/
theorem c1_amended_witness :
    isNotAdminCheck reqNonAdminList.user = true
  ∧ (handler fuzzyGo provTwoPages fetchIncomplete 5 0 reqNonAdminList emptyState).calls =
      [(10, none)] :=
  ⟨by decide,
   (c1_amended fuzzyGo provTwoPages fetchIncomplete 5 0 emptyState
      (some { role := "patients" }) none none (by decide) (Or.inl rfl) (by decide)).2.1⟩

/-! ### Claim C2 -/

/-- C2: the code bug. For the concrete non-admin listing request, the
Forbidden response is indeed the first write — but because the
controller discards the result of isNotAdmin, the provider is still
called and the cursor cache is still mutated, contradicting the claim
that no provider fetch and no cache mutation happens. -/
theorem c2_bug :
    isNotAdminCheck reqNonAdminList.user = true
  ∧ (handler fuzzyGo provTwoPages fetchIncomplete 5 0 reqNonAdminList emptyState).writes.head? =
      some Response.forbidden
  ∧ (handler fuzzyGo provTwoPages fetchIncomplete 5 0 reqNonAdminList emptyState).calls =
      [(10, none)]
  ∧ (handler fuzzyGo provTwoPages fetchIncomplete 5 0 reqNonAdminList emptyState).state.pageTokens =
      [((1 : Int), { value := "t1", timestampField := none, insertedAt := 0 })] := by
  decide

/-! ### Claim C4 -/

/-- A cursor cache holding, as the handler stored it, the bare token
string for page 1 (no .timestamp property), inserted at time 0. -/
def c4State : CacheState :=
  { pageTokens := [((1 : Int), { value := "tok1", timestampField := none, insertedAt := 0 })],
    searchResults := [] }

/-- A provider with a single, tokenless page. -/
def provNothing : Provider := fun _ _ => { users := [], pageToken := none }

/-- A profile store without documents. -/
def fetchNone : ProfileFetcher := fun _ _ => .ok none

/-- An admin request for page 1 with no search term. -/
def reqAdminPage1 : Req :=
  { user := some { role := ADMIN_ROLE }, search := none, pageField := some "1" }

/-- C4: the code bug, evaluated at the failing input. The page-1 token
was inserted at time 0 and the TTL has passed at time 300001, yet the
sweep deletes nothing (the stored value is a bare string whose
.timestamp is undefined, so the age comparison is NaN-false), the
code's own isCacheValid helper would deem the entry invalid but is
never called, and a read at 300001 still returns the stale token and
hands it to the provider instead of treating the entry as absent. -/
theorem c4_bug :
    TTL_MS < 300001 - (0 : Nat)
  ∧ sweepExpired (some 0) 300001 = true
  ∧ cleanupCaches 300001 c4State = c4State
  ∧ isCacheValid c4State.pageTokens 300001 (1 : Int) = false
  ∧ mapGet c4State.pageTokens (1 : Int) =
      some { value := "tok1", timestampField := none, insertedAt := 0 }
  ∧ (handler fuzzyGo provNothing fetchNone 5 300001 reqAdminPage1 c4State).calls =
      [(10, some "tok1")] := by
  decide

theorem mapGet_mem [DecidableEq K] {m : List (K × V)} {k : K} {v : V}
    (h : mapGet m k = some v) : (k, v) ∈ m := by
  induction m with
  | nil => simp [mapGet] at h
  | cons p rest ih =>
    rw [mapGet] at h
    by_cases hk : k = p.1
    · rw [if_pos hk] at h
      subst hk
      injection h with h2
      subst h2
      simp
    · rw [if_neg hk] at h
      exact List.mem_cons_of_mem _ (ih h)

/-! ### Claim C3 -/

/-- C3: cursor resolution for a non-search listing request by an admin.
Page 0 calls the provider with no token; a positive page with a cached
entry calls the provider with exactly that token (cached tokens are
nonempty, which is all the handler ever stores); a positive page with no
cache entry answers 400 Invalid Page without any provider call. -/
theorem c3_cursor_resolution (go : Matcher) (provider : Provider)
    (fetch : ProfileFetcher) (fuel now : Nat) (st : CacheState)
    (u : Option AuthUser) (s : Option (List String)) (f : Option String)
    (hadmin : isNotAdminCheck u = false)
    (hs : noSearch { user := u, search := s, pageField := f })
    (htok : ∀ pe ∈ st.pageTokens, pe.2.value ≠ "") :
    (jsParsePage f = 0 →
      (handler go provider fetch fuel now { user := u, search := s, pageField := f } st).calls =
        [(10, none)])
  ∧ (0 < jsParsePage f → ∀ e, mapGet st.pageTokens (jsParsePage f) = some e →
      (handler go provider fetch fuel now { user := u, search := s, pageField := f } st).calls =
        [(10, some e.value)])
  ∧ (0 < jsParsePage f → mapGet st.pageTokens (jsParsePage f) = none →
      (handler go provider fetch fuel now { user := u, search := s, pageField := f } st).calls = []
    ∧ (handler go provider fetch fuel now { user := u, search := s, pageField := f } st).writes =
        [Response.invalidPage]) := by
  have hmain : ∀ page : Int,
      (page = 0 → (runListing provider fetch now page st).calls = [(10, none)])
    ∧ (0 < page → ∀ e, mapGet st.pageTokens page = some e →
        (runListing provider fetch now page st).calls = [(10, some e.value)])
    ∧ (0 < page → mapGet st.pageTokens page = none →
        (runListing provider fetch now page st).calls = []
      ∧ (runListing provider fetch now page st).writes = [Response.invalidPage]) := by
    intro page
    refine ⟨fun hp => ?_, fun hp e he => ?_, fun hp he => ?_⟩
    · simp [runListing, hp, listAfterFetch]
    · have hne : ¬ page = 0 := by omega
      have hv : e.value ≠ "" := htok (page, e) (mapGet_mem he)
      simp [runListing, hne, he, hv, listAfterFetch]
    · have hne : ¬ page = 0 := by omega
      simp [runListing, hne, he]
  rcases hs with h | h <;> subst h <;>
    simpa [handler, hadmin] using hmain (jsParsePage f)

/-- A cursor cache holding a bare nonempty token for page 1. -/
def stTok : CacheState :=
  { pageTokens := [((1 : Int), { value := "t1", timestampField := none, insertedAt := 0 })],
    searchResults := [] }

/-- C3, witness: an admin request for page 1 against a cache holding the
token t1 calls the provider with exactly (10, t1). -/
theorem c3_cursor_resolution_witness :
    isNotAdminCheck (some { role := ADMIN_ROLE }) = false
  ∧ (handler fuzzyGo provNothing fetchNone 5 0
      { user := some { role := ADMIN_ROLE }, search := none, pageField := some "1" } stTok).calls =
      [(10, some "t1")] :=
  ⟨by decide,
   (c3_cursor_resolution fuzzyGo provNothing fetchNone 5 0 stTok
      (some { role := ADMIN_ROLE }) none (some "1") (by decide) (Or.inl rfl)
      (by decide)).2.1 (by decide)
      { value := "t1", timestampField := none, insertedAt := 0 } (by decide)⟩

/-! ### Claim C10 -/

/-- C10: a page field that is absent, unparsable, or parses to 0 makes
the whole request behave exactly as a request whose page field is the
literal string 0 — in the no-search case the provider stream is started
with no token (a single PAGE_SIZE call, no failure); only a nonzero
parsed page goes through the cursor cache. -/
theorem c10_page_parsing (go : Matcher) (provider : Provider)
    (fetch : ProfileFetcher) (fuel now : Nat) (st : CacheState)
    (u : Option AuthUser) (s : Option (List String)) (f : Option String)
    (h0 : jsParsePage f = 0) :
    handler go provider fetch fuel now { user := u, search := s, pageField := f } st =
      handler go provider fetch fuel now { user := u, search := s, pageField := some "0" } st
  ∧ (noSearch { user := u, search := s, pageField := f } →
      (handler go provider fetch fuel now { user := u, search := s, pageField := f } st).calls =
        [(10, none)]) := by
  have h1 : jsParsePage (some "0") = 0 := by decide
  constructor
  · simp only [handler, h0, h1]
  · intro hs
    rcases hs with h | h <;> subst h <;>
      simp [handler, h0, runListing, listAfterFetch]

/-- C10, witness: the unparsable page field abc is treated as page 0 and
starts the provider stream with a single tokenless call. -/
theorem c10_page_parsing_witness :
    jsParsePage (some "abc") = 0
  ∧ (handler fuzzyGo provNothing fetchNone 5 0
      { user := some { role := ADMIN_ROLE }, search := none, pageField := some "abc" }
      emptyState).calls = [(10, none)] :=
  ⟨by decide,
   (c10_page_parsing fuzzyGo provNothing fetchNone 5 0 emptyState
      (some { role := ADMIN_ROLE }) none (some "abc") (by decide)).2 (Or.inl rfl)⟩

/-! ### Claim C9 -/

/-- A second ordinary patient record. -/
def recB : UserRecordRaw :=
  { uid := "u2", email := some "b@example.com", displayName := some "Bea",
    disabled := false, emailVerified := true,
    customClaims := some { role := some "patients", isAdmin := some false, admin := some false },
    metadata := some { creationTime := "c2", lastSignInTime := "l2" } }

/-- A third ordinary patient record, whose profile fetch will throw. -/
def recC : UserRecordRaw :=
  { uid := "u3", email := some "c@example.com", displayName := some "Cal",
    disabled := false, emailVerified := true,
    customClaims := some { role := some "patients", isAdmin := some false, admin := some false },
    metadata := some { creationTime := "c3", lastSignInTime := "l3" } }

/-- A malformed record: no metadata object, so
userRecord.metadata.creationTime throws. -/
def recNoMeta : UserRecordRaw :=
  { uid := "u4", email := some "d@example.com", displayName := some "Dee",
    disabled := false, emailVerified := true,
    customClaims := some { role := some "patients", isAdmin := some false, admin := some false },
    metadata := none }

/-- A profile store that throws exactly for user u3. -/
def fetchFailing : ProfileFetcher := fun uid _ =>
  if uid = "u3" then .error () else .ok none

/-- C9: counterexample. In a batch of three records whose third record's
profile fetch throws, the exception is caught inside getProfileData and
yields a null profile: the record is not dropped and the projected batch
has length 3, not the claimed 2. -/
theorem c9_counterexample :
    fetchFailing "u3" "patients" = .error ()
  ∧ (processUserRecord fetchFailing recC).isSome = true
  ∧ jsGetField ((processUserRecord fetchFailing recC).getD .nil) "profile" = .vnull
  ∧ (projectBatch fetchFailing [recPatient, recB, recC]).length = 3 := by
  refine ⟨by simp [fetchFailing], by decide, by decide, by decide⟩

/-- C9 as amended: projection never throws outward; a failure while
building a record's own view (a malformed record without metadata) is
caught and drops exactly that record, leaving every other record's
projection unaffected (the batch projection is pointwise and
append-homomorphic), so the projected batch length is the number of
well-formed records — if one of three records is malformed the batch
has length 2. A profile-fetch exception, by contrast, is caught inside
getProfileData and yields the record with a null profile rather than
dropping it. -/
theorem c9_amended (fetch : ProfileFetcher) :
    (∀ records : List UserRecordRaw,
      (projectBatch fetch records).length =
        (records.filter (fun r => r.metadata.isSome)).length)
  ∧ (∀ r : UserRecordRaw, r.metadata = none → processUserRecord fetch r = none)
  ∧ (∀ r : UserRecordRaw, r.metadata.isSome = true → (processUserRecord fetch r).isSome = true)
  ∧ (∀ l1 l2 : List UserRecordRaw,
      projectBatch fetch (l1 ++ l2) = projectBatch fetch l1 ++ projectBatch fetch l2) := by
  have hnone : ∀ r : UserRecordRaw, r.metadata = none → processUserRecord fetch r = none := by
    intro r hr
    simp [processUserRecord, hr]
  have hsome : ∀ r : UserRecordRaw, r.metadata.isSome = true →
      (processUserRecord fetch r).isSome = true := by
    intro r hr
    rcases hm : r.metadata with _ | md
    · rw [hm] at hr; simp at hr
    · simp only [processUserRecord, hm]
      split <;> simp
  refine ⟨?_, hnone, hsome, ?_⟩
  · intro records
    induction records with
    | nil => simp [projectBatch]
    | cons r rest ih =>
      rcases hm : r.metadata with _ | md
      · have h1 := hnone r hm
        simp [projectBatch, List.filterMap_cons, h1, hm] at ih ⊢
        exact ih
      · have h2 := hsome r (by rw [hm]; rfl)
        rcases h3 : processUserRecord fetch r with _ | v
        · rw [h3] at h2; simp at h2
        · simp [projectBatch, List.filterMap_cons, h3, hm] at ih ⊢
          exact ih
  · intro l1 l2
    simp [projectBatch, List.filterMap_append]

/-- C9 amended, witness: with one malformed record among three, the
projected batch has length 2 and the malformed record projects to
null. -/
theorem c9_amended_witness :
    (projectBatch fetchFailing [recPatient, recB, recNoMeta]).length =
      (([recPatient, recB, recNoMeta].filter (fun r => r.metadata.isSome)).length)
  ∧ processUserRecord fetchFailing recNoMeta = none :=
  ⟨(c9_amended fetchFailing).1 [recPatient, recB, recNoMeta],
   (c9_amended fetchFailing).2.1 recNoMeta rfl⟩

/-! ### Claim C7 -/

/-- The all strings handed to the matcher, in population order. -/
def queryAlls (data : List JFields) : List String :=
  data.map (fun item => allOf (prepareSearchableObject item))

/-- The fallback branch of performSearch: the plain case-insensitive
substring containment scan over every flattened field, score 0. -/
def fallbackResults (searchQuery : String) (data : List JFields) :
    List ScoredItem :=
  let query := jsTrim (jsToLower searchQuery)
  ((data.map (fun item => (item, prepareSearchableObject item))).filter
    (fun p => (p.2.map Prod.snd).any (fun v => strIncludes v query))).map
    (fun p => { original := p.1, searchScore := 0 })

/-- The primary branch of performSearch: the matcher hits mapped back to
their original objects with the matcher's scores. -/
def primaryResults (go : Matcher) (searchQuery : String) (data : List JFields) :
    List ScoredItem :=
  let searchableData := data.map (fun item => (item, prepareSearchableObject item))
  let query := jsTrim (jsToLower searchQuery)
  (go query (searchableData.map (fun p => allOf p.2))).filterMap
    (fun h => (searchableData[h.idx]?).map
      (fun p => { original := p.1, searchScore := h.score }))

/-- C7: for a nonempty term and population, the substring fallback is
executed exactly when the primary matcher returns zero hits — in that
case the result is the fallback scan and every result scores 0 — and
when the matcher returns at least one hit the result is exactly the
mapped matcher hits, with no fallback entry added. -/
theorem c7_fallback_iff (go : Matcher) (q : String) (data : List JFields)
    (hq : q ≠ "") (hd : data ≠ []) :
    (go (jsTrim (jsToLower q)) (queryAlls data) = [] →
      performSearch go q data = fallbackResults q data
    ∧ ∀ it ∈ performSearch go q data, it.searchScore = 0)
  ∧ (go (jsTrim (jsToLower q)) (queryAlls data) ≠ [] →
      performSearch go q data = primaryResults go q data) := by
  have hAlls : ((data.map (fun item => (item, prepareSearchableObject item))).map
      (fun p => allOf p.2)) = queryAlls data := by
    simp [queryAlls]
  constructor
  · intro hgo
    have hps : performSearch go q data = fallbackResults q data := by
      simp only [performSearch, fallbackResults]
      rw [if_neg (by simp [hq, hd])]
      simp [hAlls, hgo]
    refine ⟨hps, ?_⟩
    intro it hit
    rw [hps] at hit
    simp only [fallbackResults, List.mem_map] at hit
    obtain ⟨p, _, hp⟩ := hit
    rw [← hp]
  · intro hgo
    simp only [performSearch, primaryResults]
    rw [if_neg (by simp [hq, hd])]
    simp only [hAlls]
    rw [if_neg hgo]

/-- The record from the spec's flatten-exclusion example. -/
def bobRecord : JFields :=
  .cons "token" (.vstr "secret") (.cons "name" (.vstr "Bob") .nil)

/-- C7, witness: a term the model matcher cannot match falls back to the
substring scan (empty here, since zzz occurs nowhere). -/
theorem c7_fallback_iff_witness :
    performSearch fuzzyGo "zzz" [bobRecord] = fallbackResults "zzz" [bobRecord] :=
  ((c7_fallback_iff fuzzyGo "zzz" [bobRecord] (by decide) (by decide)).1 (by decide)).1

/-! ### Claim C5 -/

/-- C5: search idempotence. If a first search request completed with a
search response, then a second request with the same search terms (same
cache key) and the same page field, run against the first request's
resulting state, performs zero provider listUsers calls and returns the
identical search payload: the ranked result set is served from the
result cache and the full-population fetch runs at most once. -/
theorem c5_search_idempotent (go : Matcher) (provider : Provider)
    (fetch : ProfileFetcher) (fuel fuel2 now now2 : Nat) (st : CacheState)
    (u : Option AuthUser) (terms : List String) (f : Option String)
    (d : SearchData)
    (hadmin : isNotAdminCheck u = false) (hterms : terms ≠ [])
    (h1 : firstSearchOk (handler go provider fetch fuel now
            { user := u, search := some terms, pageField := f } st) = some d) :
    (handler go provider fetch fuel2 now2
        { user := u, search := some terms, pageField := f }
        (handler go provider fetch fuel now
          { user := u, search := some terms, pageField := f } st).state).calls = []
  ∧ firstSearchOk (handler go provider fetch fuel2 now2
        { user := u, search := some terms, pageField := f }
        (handler go provider fetch fuel now
          { user := u, search := some terms, pageField := f } st).state) = some d := by
  have hred : ∀ (fl nw : Nat) (s' : CacheState),
      handler go provider fetch fl nw
        { user := u, search := some terms, pageField := f } s' =
        runSearch go provider fetch fl nw terms (jsParsePage f) s' := by
    intro fl nw s'
    simp [handler, hadmin, hterms]
  rw [hred] at h1
  rw [hred, hred]
  rcases hc : mapGet st.searchResults (serializeTerms terms) with _ | entry
  · rcases hf : fetchAllUsers provider fetch fuel none [] [] with ⟨o, log⟩
    rcases o with _ | allUsers
    · simp [runSearch, hc, hf, firstSearchOk] at h1
    · simp only [runSearch, hc, hf] at h1 ⊢
      simp only [firstSearchOk, List.findSome?] at h1
      simp only [Option.some.injEq] at h1
      subst h1
      simp [mapGet_mapSet_self, firstSearchOk]
  · simp only [runSearch, hc] at h1 ⊢
    simp only [firstSearchOk, List.findSome?] at h1
    simp only [Option.some.injEq] at h1
    subst h1
    simp [hc, firstSearchOk]

/-- The ranked payload of the concrete idempotence witness run. -/
def c5d : SearchData :=
  mkSearchData (SearchQuery fuzzyGo ["pat"]
    (projectBatch fetchIncomplete [recPatient])) 0

/-- C5, witness: an admin searching for pat twice; the first run caches,
the second run makes no provider call and returns the same payload. -/
theorem c5_search_idempotent_witness :
    isNotAdminCheck (some { role := ADMIN_ROLE }) = false
  ∧ (handler fuzzyGo provTwoPages fetchIncomplete 3 7
      { user := some { role := ADMIN_ROLE }, search := some ["pat"], pageField := none }
      (handler fuzzyGo provTwoPages fetchIncomplete 5 0
        { user := some { role := ADMIN_ROLE }, search := some ["pat"], pageField := none }
        emptyState).state).calls = []
  ∧ firstSearchOk (handler fuzzyGo provTwoPages fetchIncomplete 3 7
      { user := some { role := ADMIN_ROLE }, search := some ["pat"], pageField := none }
      (handler fuzzyGo provTwoPages fetchIncomplete 5 0
        { user := some { role := ADMIN_ROLE }, search := some ["pat"], pageField := none }
        emptyState).state) = some c5d :=
  ⟨by decide,
   (c5_search_idempotent fuzzyGo provTwoPages fetchIncomplete 5 3 0 7 emptyState
      (some { role := ADMIN_ROLE }) ["pat"] none c5d (by decide) (by decide)
      (by decide)).1,
   (c5_search_idempotent fuzzyGo provTwoPages fetchIncomplete 5 3 0 7 emptyState
      (some { role := ADMIN_ROLE }) ["pat"] none c5d (by decide) (by decide)
      (by decide)).2⟩

/-! ### Claim C8 -/

-- scrub erases exactly the data the flattening ignores: the value under
-- every excluded field name, and the identity of every Timestamp/Date.
-- Two objects differ only in such data iff their scrubs are equal.
mutual
def scrubVal : JValue → JValue
  | .vtimestamp _ => .vtimestamp 0
  | .varr items => .varr (scrubList items)
  | .vobj fields => .vobj (scrubFields fields)
  | v => v
def scrubList : JList → JList
  | .nil => .nil
  | .cons v rest => .cons (scrubVal v) (scrubList rest)
def scrubFields : JFields → JFields
  | .nil => .nil
  | .cons k v rest =>
    if excludedKey k then .cons k .vnull (scrubFields rest)
    else .cons k (scrubVal v) (scrubFields rest)
end

mutual
theorem flattenFields_scrub : ∀ (f : JFields) (sb : Searchable) (pfx : String),
    flattenFields sb pfx (scrubFields f) = flattenFields sb pfx f
  | .nil, _, _ => rfl
  | .cons k v rest, sb, pfx => by
    cases v with
    | vnull =>
      cases hk : excludedKey k with
      | true =>
        simp [scrubFields, hk, flattenFields, skipField]
        all_goals exact flattenFields_scrub rest _ pfx
      | false =>
        simp [scrubFields, hk, flattenFields, skipField, scrubVal]
        all_goals exact flattenFields_scrub rest _ pfx
    | vbool b =>
      cases hk : excludedKey k with
      | true =>
        simp [scrubFields, hk, flattenFields, skipField]
        all_goals exact flattenFields_scrub rest _ pfx
      | false =>
        simp [scrubFields, hk, flattenFields, skipField, scrubVal]
        all_goals exact flattenFields_scrub rest _ pfx
    | vnum n =>
      cases hk : excludedKey k with
      | true =>
        simp [scrubFields, hk, flattenFields, skipField]
        all_goals exact flattenFields_scrub rest _ pfx
      | false =>
        simp [scrubFields, hk, flattenFields, skipField, scrubVal]
        all_goals exact flattenFields_scrub rest _ pfx
    | vstr s =>
      cases hk : excludedKey k with
      | true =>
        simp [scrubFields, hk, flattenFields, skipField]
        all_goals exact flattenFields_scrub rest _ pfx
      | false =>
        simp [scrubFields, hk, flattenFields, skipField, scrubVal]
        all_goals exact flattenFields_scrub rest _ pfx
    | vtimestamp t =>
      cases hk : excludedKey k with
      | true =>
        simp [scrubFields, hk, flattenFields, skipField]
        all_goals exact flattenFields_scrub rest _ pfx
      | false =>
        simp [scrubFields, hk, flattenFields, skipField, scrubVal]
        all_goals exact flattenFields_scrub rest _ pfx
    | varr items =>
      cases hk : excludedKey k with
      | true =>
        simp [scrubFields, hk, flattenFields, skipField]
        all_goals exact flattenFields_scrub rest _ pfx
      | false =>
        simp [scrubFields, hk, flattenFields, skipField, scrubVal]
        rw [flattenArray_scrub items sb]
        all_goals exact flattenFields_scrub rest _ pfx
    | vobj fields =>
      cases hk : excludedKey k with
      | true =>
        simp [scrubFields, hk, flattenFields, skipField]
        all_goals exact flattenFields_scrub rest _ pfx
      | false =>
        simp [scrubFields, hk, flattenFields, skipField, scrubVal]
        rw [flattenFields_scrub fields sb]
        all_goals exact flattenFields_scrub rest _ pfx

theorem flattenArray_scrub : ∀ (l : JList) (sb : Searchable),
    flattenArray sb (scrubList l) = flattenArray sb l
  | .nil, _ => rfl
  | .cons item rest, sb => by
    cases item with
    | vnull =>
      simp only [scrubList, scrubVal, flattenArray, processValue]
      rw [flattenArray_scrub rest sb]
    | vbool b =>
      simp only [scrubList, scrubVal, flattenArray, processValue]
      rw [flattenArray_scrub rest sb]
    | vnum n =>
      simp only [scrubList, scrubVal, flattenArray, processValue]
      rw [flattenArray_scrub rest sb]
    | vstr s =>
      simp only [scrubList, scrubVal, flattenArray, processValue]
      rw [flattenArray_scrub rest sb]
    | vtimestamp t =>
      simp only [scrubList, scrubVal, flattenArray, processValue]
      rw [flattenArray_scrub rest sb]
    | varr items =>
      simp only [scrubList, scrubVal, flattenArray]
      rw [flattenIndexed_scrub items sb 0, flattenArray_scrub rest _]
    | vobj fields =>
      simp only [scrubList, scrubVal, flattenArray]
      rw [flattenFields_scrub fields sb "", flattenArray_scrub rest _]

theorem flattenIndexed_scrub : ∀ (l : JList) (sb : Searchable) (i : Nat),
    flattenIndexed sb i (scrubList l) = flattenIndexed sb i l
  | .nil, _, _ => rfl
  | .cons item rest, sb, i => by
    cases item with
    | vnull =>
      simp only [scrubList, scrubVal, flattenIndexed, processValue]
      exact flattenIndexed_scrub rest _ _
    | vbool b =>
      simp only [scrubList, scrubVal, flattenIndexed, processValue]
      exact flattenIndexed_scrub rest _ _
    | vnum n =>
      simp only [scrubList, scrubVal, flattenIndexed, processValue]
      exact flattenIndexed_scrub rest _ _
    | vstr s =>
      simp only [scrubList, scrubVal, flattenIndexed, processValue]
      exact flattenIndexed_scrub rest _ _
    | vtimestamp t =>
      simp only [scrubList, scrubVal, flattenIndexed, processValue]
      exact flattenIndexed_scrub rest _ _
    | varr items =>
      simp only [scrubList, scrubVal, flattenIndexed]
      rw [flattenArray_scrub items sb]
      exact flattenIndexed_scrub rest _ _
    | vobj fields =>
      simp only [scrubList, scrubVal, flattenIndexed]
      rw [flattenFields_scrub fields sb (toString i)]
      exact flattenIndexed_scrub rest _ _
end

/-- Scrub-equal objects flatten identically, including the all field. -/
theorem prepareSearchableObject_scrub (u1 u2 : JFields)
    (h : scrubFields u1 = scrubFields u2) :
    prepareSearchableObject u1 = prepareSearchableObject u2 := by
  have h1 : flattenFields [] "" u1 = flattenFields [] "" u2 := by
    rw [← flattenFields_scrub u1 [] "", h, flattenFields_scrub u2 [] ""]
  simp [prepareSearchableObject, h1]

/-- Whether a record matches a query: performSearch on the singleton
population returns it. -/
def matchesQuery (go : Matcher) (q : String) (u : JFields) : Bool :=
  !(performSearch go q [u]).isEmpty

/-- The match outcome as a function of the searchable map alone: the
matcher only ever sees the all field, and the fallback only the
flattened values, so whether a singleton population matches is fully
determined by its searchable map. -/
def matchesSearchable (go : Matcher) (q : String) (sb : Searchable) : Bool :=
  if q = "" then false
  else
    let query := jsTrim (jsToLower q)
    let results := go query [allOf sb]
    if results = [] then (sb.map Prod.snd).any (fun v => strIncludes v query)
    else results.any (fun h => h.idx = 0)

theorem singleton_filterMap_isEmpty {α β : Type} (hits : List SearchHit)
    (p : α) (F : SearchHit → α → β) :
    (!(hits.filterMap (fun h => (([p])[h.idx]?).map (F h))).isEmpty) =
      hits.any (fun h => h.idx = 0) := by
  induction hits with
  | nil => simp
  | cons a l ih =>
    rcases ha : a.idx with _ | n
    · simp [List.filterMap_cons, ha]
    · simp only [List.filterMap_cons, ha]
      simp only [List.getElem?_cons_succ, List.getElem?_nil, Option.map_none]
      simp only [List.any_cons, ha]
      simp [← ih]

theorem matchesQuery_eq (go : Matcher) (q : String) (u : JFields) :
    matchesQuery go q u = matchesSearchable go q (prepareSearchableObject u) := by
  by_cases hq : q = ""
  · simp [matchesQuery, performSearch, matchesSearchable, hq]
  · have hcond : ¬(q = "" ∨ [u] = ([] : List JFields)) := by simp [hq]
    simp only [matchesQuery, performSearch, if_neg hcond, matchesSearchable, if_neg hq,
      List.map_cons, List.map_nil]
    rcases hgo : go (jsTrim (jsToLower q)) [allOf (prepareSearchableObject u)] with _ | ⟨hit, hits⟩
    · rw [if_pos rfl, if_pos rfl]
      cases hpred : ((prepareSearchableObject u).map Prod.snd).any
          (fun v => strIncludes v (jsTrim (jsToLower q))) with
      | true => simp [List.filter_cons, hpred]
      | false => simp [List.filter_cons, hpred]
    · rw [if_neg (by simp), if_neg (by simp)]
      exact singleton_filterMap_isEmpty (hit :: hits) (u, prepareSearchableObject u)
        (fun h p => ({ original := p.1, searchScore := h.score } : ScoredItem))

theorem matchesQuery_congr (u1 u2 : JFields)
    (h : prepareSearchableObject u1 = prepareSearchableObject u2)
    (go : Matcher) (q : String) :
    matchesQuery go q u1 = matchesQuery go q u2 := by
  rw [matchesQuery_eq, matchesQuery_eq, h]

/-- C8: two records that differ only in the value of a password/token
field, a field whose name contains date, or a Timestamp/Date-typed value
(captured by equality after scrubbing exactly that data) flatten to the
identical searchable map — hence every search query, under every matcher
(which only sees the searchable data), matches one iff it matches the
other; in particular the record with token secret never matches the
query secret but does match bob. -/
theorem c8_flatten_exclusions (u1 u2 : JFields)
    (h : scrubFields u1 = scrubFields u2) :
    prepareSearchableObject u1 = prepareSearchableObject u2
  ∧ (∀ go : Matcher, ∀ q : String, matchesQuery go q u1 = matchesQuery go q u2)
  ∧ matchesQuery fuzzyGo "secret" bobRecord = false
  ∧ matchesQuery fuzzyGo "bob" bobRecord = true := by
  have hp := prepareSearchableObject_scrub u1 u2 h
  exact ⟨hp, fun go q => matchesQuery_congr u1 u2 hp go q, by decide, by decide⟩

/-- The spec's example record with a different secret in the token field
and a timestamp-valued extra field. -/
def bobRecord2 : JFields :=
  .cons "token" (.vstr "other") (.cons "name" (.vstr "Bob") .nil)

/-- C8, witness: the two Bob records differing only in the token value
have equal scrubs, flatten identically and match the same queries. -/
theorem c8_flatten_exclusions_witness :
    scrubFields bobRecord = scrubFields bobRecord2
  ∧ prepareSearchableObject bobRecord = prepareSearchableObject bobRecord2
  ∧ matchesQuery fuzzyGo "bob" bobRecord = matchesQuery fuzzyGo "bob" bobRecord2 :=
  ⟨by decide,
   (c8_flatten_exclusions bobRecord bobRecord2 (by decide)).1,
   (c8_flatten_exclusions bobRecord bobRecord2 (by decide)).2.1 fuzzyGo "bob"⟩

/-! ### Claim C6 -/

/-- The uid value of a search result. -/
def uidOf (it : ScoredItem) : JValue :=
  jsGetField it.original "uid"

theorem mapGet_eq_none_iff [DecidableEq K] (m : List (K × V)) (k : K) :
    mapGet m k = none ↔ ∀ p ∈ m, p.1 ≠ k := by
  induction m with
  | nil => simp [mapGet]
  | cons p rest ih =>
    by_cases h : k = p.1
    · subst h
      simp [mapGet]
    · simp only [mapGet, if_neg h, ih, List.mem_cons]
      constructor
      · rintro hall q (rfl | hq)
        · exact fun he => h he.symm
        · exact hall q hq
      · intro hall q hq
        exact hall q (Or.inr hq)

theorem mapSet_of_get_none [DecidableEq K] (m : List (K × V)) (k : K) (v : V)
    (h : mapGet m k = none) : mapSet m k v = m ++ [(k, v)] := by
  induction m with
  | nil => rfl
  | cons p rest ih =>
    by_cases hk : k = p.1
    · rw [mapGet, if_pos hk] at h
      exact absurd h (by simp)
    · rw [mapGet, if_neg hk] at h
      simp [mapSet, hk, ih h]

theorem keys_mapSet_of_some [DecidableEq K] (m : List (K × V)) (k : K) (w v : V)
    (h : mapGet m k = some w) :
    (mapSet m k v).map Prod.fst = m.map Prod.fst := by
  induction m with
  | nil => simp [mapGet] at h
  | cons p rest ih =>
    by_cases hk : k = p.1
    · simp [mapSet, hk]
    · rw [mapGet, if_neg hk] at h
      simp [mapSet, hk, ih h]

theorem mem_mapSet_of_ne [DecidableEq K] (m : List (K × V)) (k : K) (v : V)
    (q : K × V) (hq : q ∈ m) (hne : q.1 ≠ k) : q ∈ mapSet m k v := by
  induction m with
  | nil => simp at hq
  | cons p rest ih =>
    rcases List.mem_cons.mp hq with rfl | hq
    · have : ¬ k = q.1 := fun he => hne he.symm
      simp [mapSet, this]
    · by_cases hk : k = p.1
      · simp [mapSet, hk, List.mem_cons, hq]
      · simp only [mapSet, if_neg hk, List.mem_cons]
        exact Or.inr (ih hq)

theorem mem_mapSet_of_nodup [DecidableEq K] (m : List (K × V)) (k : K) (v : V)
    (hnd : (m.map Prod.fst).Nodup) :
    ∀ p ∈ mapSet m k v, p = (k, v) ∨ (p ∈ m ∧ p.1 ≠ k) := by
  induction m with
  | nil =>
    intro p hp
    simp only [mapSet, List.mem_singleton] at hp
    exact Or.inl hp
  | cons q rest ih =>
    rw [List.map_cons] at hnd
    obtain ⟨hhd, htl⟩ := List.nodup_cons.mp hnd
    intro p hp
    by_cases hk : k = q.1
    · rw [mapSet, if_pos hk] at hp
      rcases List.mem_cons.mp hp with rfl | hp
      · exact Or.inl rfl
      · refine Or.inr ⟨List.mem_cons_of_mem _ hp, ?_⟩
        intro he
        exact hhd (by
          rw [← hk, ← he]
          exact List.mem_map_of_mem Prod.fst hp)
    · rw [mapSet, if_neg hk] at hp
      rcases List.mem_cons.mp hp with rfl | hp
      · exact Or.inr ⟨List.mem_cons_self _ _, fun he => hk he.symm⟩
      · rcases ih htl p hp with h | ⟨hm, hne⟩
        · exact Or.inl h
        · exact Or.inr ⟨List.mem_cons_of_mem _ hm, hne⟩

theorem mapGet_of_mem_nodup [DecidableEq K] (m : List (K × V))
    (hnd : (m.map Prod.fst).Nodup) (k : K) (v : V) (h : (k, v) ∈ m) :
    mapGet m k = some v := by
  induction m with
  | nil => simp at h
  | cons p rest ih =>
    rw [List.map_cons] at hnd
    obtain ⟨hhd, htl⟩ := List.nodup_cons.mp hnd
    rcases List.mem_cons.mp h with he | hm
    · rw [← he]
      simp [mapGet]
    · have hk : ¬ k = p.1 := by
        intro hk
        exact hhd (by
          rw [← hk]
          exact List.mem_map_of_mem Prod.fst hm)
      rw [mapGet, if_neg hk]
      exact ih htl hm

/-- The invariant of the dedup loop: keys are unique, every stored entry
is keyed by its own dedup key, comes from the processed prefix, and
carries the maximum score among processed entries with its key; every
processed entry's key is present. -/
def DedupInv (processed : List ScoredItem) (m : List (JValue × ScoredItem)) : Prop :=
  (m.map Prod.fst).Nodup
  ∧ (∀ p ∈ m, dedupKey p.2 = p.1 ∧ p.2 ∈ processed ∧
      ∀ a ∈ processed, dedupKey a = p.1 → a.searchScore ≤ p.2.searchScore)
  ∧ (∀ a ∈ processed, ∃ p ∈ m, p.1 = dedupKey a)

theorem dedupStep_inv (processed : List ScoredItem)
    (m : List (JValue × ScoredItem)) (item : ScoredItem)
    (h : DedupInv processed m) :
    DedupInv (processed ++ [item]) (dedupStep m item) := by
  obtain ⟨hnd, hent, hcov⟩ := h
  rcases hget : mapGet m (dedupKey item) with _ | existing
  · have hstep : dedupStep m item = mapSet m (dedupKey item) item := by
      simp only [dedupStep, hget]
    rw [hstep, mapSet_of_get_none m _ item hget]
    have hnew : ∀ p ∈ m, p.1 ≠ dedupKey item :=
      (mapGet_eq_none_iff m (dedupKey item)).mp hget
    refine ⟨?_, ?_, ?_⟩
    · simp only [List.map_append, List.map_cons, List.map_nil]
      rw [List.nodup_append]
      refine ⟨hnd, List.nodup_singleton _, ?_⟩
      intro x hx
      simp only [List.mem_singleton]
      intro he
      subst he
      obtain ⟨p, hp, hpe⟩ := List.mem_map.mp hx
      exact hnew p hp hpe
    · intro p hp
      rcases List.mem_append.mp hp with hp | hp
      · obtain ⟨hk, hmem, hmax⟩ := hent p hp
        refine ⟨hk, List.mem_append_left _ hmem, ?_⟩
        intro a ha hka
        rcases List.mem_append.mp ha with ha | ha
        · exact hmax a ha hka
        · rw [List.mem_singleton.mp ha] at hka
          exact absurd hka.symm (hnew p hp)
      · rw [List.mem_singleton.mp hp]
        refine ⟨rfl, List.mem_append_right _ (List.mem_singleton_self _), ?_⟩
        intro a ha hka
        rcases List.mem_append.mp ha with ha | ha
        · obtain ⟨q, hq, hqk⟩ := hcov a ha
          exact absurd (hqk.trans hka) (hnew q hq)
        · rw [List.mem_singleton.mp ha]
    · intro a ha
      rcases List.mem_append.mp ha with ha | ha
      · obtain ⟨q, hq, hqk⟩ := hcov a ha
        exact ⟨q, List.mem_append_left _ hq, hqk⟩
      · rw [List.mem_singleton.mp ha]
        exact ⟨(dedupKey item, item), List.mem_append_right _ (List.mem_singleton_self _), rfl⟩
  · have hexm : (dedupKey item, existing) ∈ m := mapGet_mem hget
    have hexent := hent _ hexm
    have hstep : dedupStep m item =
        if existing.searchScore < item.searchScore
        then mapSet m (dedupKey item) item else m := by
      simp only [dedupStep, hget]
    by_cases hlt : existing.searchScore < item.searchScore
    · rw [hstep, if_pos hlt]
      refine ⟨by rw [keys_mapSet_of_some m _ existing item hget]; exact hnd, ?_, ?_⟩
      · intro p hp
        rcases mem_mapSet_of_nodup m _ item hnd p hp with rfl | ⟨hpm, hpk⟩
        · refine ⟨rfl, List.mem_append_right _ (List.mem_singleton_self _), ?_⟩
          intro a ha hka
          rcases List.mem_append.mp ha with ha | ha
          · exact le_of_lt (lt_of_le_of_lt (hexent.2.2 a ha hka) hlt)
          · rw [List.mem_singleton.mp ha]
        · obtain ⟨hk, hmem, hmax⟩ := hent p hpm
          refine ⟨hk, List.mem_append_left _ hmem, ?_⟩
          intro a ha hka
          rcases List.mem_append.mp ha with ha | ha
          · exact hmax a ha hka
          · rw [List.mem_singleton.mp ha] at hka
            exact absurd hka.symm hpk
      · intro a ha
        rcases List.mem_append.mp ha with ha | ha
        · obtain ⟨q, hq, hqk⟩ := hcov a ha
          by_cases hqe : q.1 = dedupKey item
          · refine ⟨(dedupKey item, item), ?_, by rw [← hqk, hqe]⟩
            exact mapGet_mem (mapGet_mapSet_self m (dedupKey item) item)
          · exact ⟨q, mem_mapSet_of_ne m _ item q hq hqe, hqk⟩
        · rw [List.mem_singleton.mp ha]
          exact ⟨(dedupKey item, item),
            mapGet_mem (mapGet_mapSet_self m (dedupKey item) item), rfl⟩
    · rw [hstep, if_neg hlt]
      refine ⟨hnd, ?_, ?_⟩
      · intro p hp
        obtain ⟨hk, hmem, hmax⟩ := hent p hp
        refine ⟨hk, List.mem_append_left _ hmem, ?_⟩
        intro a ha hka
        rcases List.mem_append.mp ha with ha | ha
        · exact hmax a ha hka
        · rw [List.mem_singleton.mp ha] at hka ⊢
          have hg2 : mapGet m p.1 = some p.2 :=
            mapGet_of_mem_nodup m hnd p.1 p.2 (by simpa using hp)
          rw [← hka] at hg2
          rw [hget] at hg2
          have hpe : existing = p.2 := Option.some.inj hg2
          rw [← hpe]
          exact le_of_not_lt hlt
      · intro a ha
        rcases List.mem_append.mp ha with ha | ha
        · exact hcov a ha
        · rw [List.mem_singleton.mp ha]
          exact ⟨(dedupKey item, existing), hexm, rfl⟩

theorem dedupFold_inv_aux : ∀ (items processed : List ScoredItem)
    (m : List (JValue × ScoredItem)), DedupInv processed m →
    DedupInv (processed ++ items) (items.foldl dedupStep m)
  | [], processed, m, h => by simpa using h
  | item :: rest, processed, m, h => by
    have h2 := dedupFold_inv_aux rest (processed ++ [item]) (dedupStep m item)
      (dedupStep_inv processed m item h)
    simpa using h2

theorem dedupFold_inv (items : List ScoredItem) :
    DedupInv items (dedupFold items) := by
  have h0 : DedupInv [] [] := by
    refine ⟨by simp, by simp, by simp⟩
  simpa [dedupFold] using dedupFold_inv_aux items [] [] h0

theorem insertDesc_perm (a : ScoredItem) (l : List ScoredItem) :
    List.Perm (insertDesc a l) (a :: l) := by
  induction l with
  | nil => simp [insertDesc]
  | cons b t ih =>
    rw [insertDesc]
    by_cases hb : b.searchScore ≤ a.searchScore
    · rw [if_pos hb]
    · rw [if_neg hb]
      exact (ih.cons b).trans (List.Perm.swap a b t)

theorem sortByScoreDesc_perm (l : List ScoredItem) :
    List.Perm (sortByScoreDesc l) l := by
  induction l with
  | nil => simp [sortByScoreDesc]
  | cons a t ih =>
    rw [sortByScoreDesc]
    exact (insertDesc_perm a (sortByScoreDesc t)).trans (ih.cons a)

theorem insertDesc_sorted (a : ScoredItem) (l : List ScoredItem)
    (h : List.Pairwise (fun x y => y.searchScore ≤ x.searchScore) l) :
    List.Pairwise (fun x y => y.searchScore ≤ x.searchScore) (insertDesc a l) := by
  induction l with
  | nil => simp [insertDesc]
  | cons b t ih =>
    obtain ⟨hb, ht⟩ := List.pairwise_cons.mp h
    rw [insertDesc]
    by_cases hba : b.searchScore ≤ a.searchScore
    · rw [if_pos hba]
      refine List.pairwise_cons.mpr ⟨?_, h⟩
      intro x hx
      rcases List.mem_cons.mp hx with rfl | hx
      · exact hba
      · exact le_trans (hb x hx) hba
    · rw [if_neg hba]
      refine List.pairwise_cons.mpr ⟨?_, ih ht⟩
      intro x hx
      have hx' : x = a ∨ x ∈ t := by
        simpa using (insertDesc_perm a t).mem_iff.mp hx
      rcases hx' with rfl | hx'
      · exact le_of_lt (lt_of_not_ge hba)
      · exact hb x hx'

theorem sortByScoreDesc_sorted (l : List ScoredItem) :
    List.Pairwise (fun x y => y.searchScore ≤ x.searchScore) (sortByScoreDesc l) := by
  induction l with
  | nil => simp [sortByScoreDesc]
  | cons a t ih =>
    rw [sortByScoreDesc]
    exact insertDesc_sorted a (sortByScoreDesc t) ih

theorem performSearch_original_mem (go : Matcher) (q : String)
    (d : List JFields) : ∀ it ∈ performSearch go q d, it.original ∈ d := by
  intro it hit
  by_cases hc : q = "" ∨ d = []
  · simp only [performSearch, if_pos hc] at hit
    simp at hit
  · simp only [performSearch, if_neg hc] at hit
    rcases hgo : go (jsTrim (jsToLower q))
        ((d.map (fun item => (item, prepareSearchableObject item))).map
          (fun p => allOf p.2)) with _ | ⟨h1, hs⟩
    · rw [hgo, if_pos rfl] at hit
      simp only [List.mem_map, List.mem_filter] at hit
      obtain ⟨p, ⟨hp, _⟩, heq⟩ := hit
      obtain ⟨item, hi, hpe⟩ := hp
      rw [← heq, ← hpe]
      exact hi
    · rw [hgo, if_neg (by simp)] at hit
      simp only [List.mem_filterMap] at hit
      obtain ⟨h, _, heq⟩ := hit
      rcases hge : (List.map (fun item => (item, prepareSearchableObject item)) d)[h.idx]? with _ | p
      · rw [hge] at heq
        simp at heq
      · rw [hge] at heq
        simp only [Option.map_some'] at heq
        obtain ⟨item, hi, rfl⟩ := List.mem_map.mp (List.getElem?_mem hge)
        rw [← Option.some.inj heq]
        exact hi

theorem allTermResults_original_mem (go : Matcher) (search : List String)
    (searchFrom : List JFields) :
    ∀ it ∈ allTermResults go search searchFrom, it.original ∈ searchFrom := by
  intro it hit
  simp only [allTermResults, List.mem_flatMap] at hit
  obtain ⟨term, _, hit⟩ := hit
  exact performSearch_original_mem go term searchFrom it hit

theorem dedupKey_eq_uidOf (it : ScoredItem) (s : String) (hs : s ≠ "")
    (h : jsGetField it.original "uid" = .vstr s) : dedupKey it = uidOf it := by
  simp [dedupKey, uidOf, h, jsTruthy, hs]

/-- C6: for every term list and population whose members carry nonempty
string uids, SearchQuery returns at most one entry per uid, every
returned entry is one of the per-term results and carries the maximum
score observed among all per-term results with its uid, and the result
is sorted by score descending. -/
theorem c6_dedup_max_sort (go : Matcher) (search : List String)
    (searchFrom : List JFields)
    (huid : ∀ u ∈ searchFrom, ∃ s : String, s ≠ "" ∧ jsGetField u "uid" = .vstr s) :
    List.Pairwise (fun a b => uidOf a ≠ uidOf b) (SearchQuery go search searchFrom)
  ∧ (∀ e ∈ SearchQuery go search searchFrom,
      e ∈ allTermResults go search searchFrom
    ∧ ∀ a ∈ allTermResults go search searchFrom,
        uidOf a = uidOf e → a.searchScore ≤ e.searchScore)
  ∧ List.Pairwise (fun a b => b.searchScore ≤ a.searchScore)
      (SearchQuery go search searchFrom) := by
  by_cases h1 : searchFrom = []
  · simp [SearchQuery, h1]
  · by_cases h2 : normalizeTerms search = []
    · simp [SearchQuery, h1, h2]
    · have hq : SearchQuery go search searchFrom =
        sortByScoreDesc
          ((dedupFold (allTermResults go search searchFrom)).map Prod.snd) := by
        simp [SearchQuery, h1, h2]
      obtain ⟨hnd, hent, hcov⟩ := dedupFold_inv (allTermResults go search searchFrom)
      have hkey : ∀ a ∈ allTermResults go search searchFrom, dedupKey a = uidOf a := by
        intro a ha
        obtain ⟨s, hs, hgf⟩ :=
          huid a.original (allTermResults_original_mem go search searchFrom a ha)
        exact dedupKey_eq_uidOf a s hs hgf
      have hperm := sortByScoreDesc_perm
        ((dedupFold (allTermResults go search searchFrom)).map Prod.snd)
      have hpw1 : List.Pairwise (fun a b => uidOf a ≠ uidOf b)
          ((dedupFold (allTermResults go search searchFrom)).map Prod.snd) := by
        rw [List.pairwise_map]
        refine List.Pairwise.imp_of_mem ?_ (List.pairwise_map.mp hnd)
        intro p q hp hq hne
        obtain ⟨hk1, hm1, _⟩ := hent p hp
        obtain ⟨hk2, hm2, _⟩ := hent q hq
        rw [← hkey p.2 hm1, ← hkey q.2 hm2, hk1, hk2]
        exact hne
      have hsym : ∀ {x y : ScoredItem},
          (fun a b => uidOf a ≠ uidOf b) x y → (fun a b => uidOf a ≠ uidOf b) y x :=
        fun h he => h he.symm
      rw [hq]
      refine ⟨(hperm.pairwise_iff hsym).mpr hpw1, ?_, sortByScoreDesc_sorted _⟩
      intro e he
      have he' := hperm.mem_iff.mp he
      obtain ⟨p, hp, rfl⟩ := List.mem_map.mp he'
      obtain ⟨hk, hmem, hmax⟩ := hent p hp
      refine ⟨hmem, ?_⟩
      intro a ha hu
      apply hmax a ha
      rw [hkey a ha, hu, ← hkey p.2 hmem, hk]

/-- The population of the spec's dedup example, with nonempty uids. -/
def anneObj : JFields :=
  .cons "uid" (.vstr "1") (.cons "name" (.vstr "Anne") .nil)

/-- Second member of the dedup example population. -/
def annaObj : JFields :=
  .cons "uid" (.vstr "2") (.cons "name" (.vstr "Anna") .nil)

/-- C6, witness: searching anna and anne over the two-user population
yields a result with pairwise-distinct uids sorted by descending
score. -/
theorem c6_dedup_max_sort_witness :
    List.Pairwise (fun a b => uidOf a ≠ uidOf b)
      (SearchQuery fuzzyGo ["anna", "anne"] [anneObj, annaObj])
  ∧ List.Pairwise (fun a b => b.searchScore ≤ a.searchScore)
      (SearchQuery fuzzyGo ["anna", "anne"] [anneObj, annaObj]) := by
  have huid : ∀ u ∈ [anneObj, annaObj],
      ∃ s : String, s ≠ "" ∧ jsGetField u "uid" = .vstr s := by
    intro u hu
    rcases List.mem_cons.mp hu with rfl | hu
    · exact ⟨"1", by decide, by decide⟩
    · rcases List.mem_cons.mp hu with rfl | hu
      · exact ⟨"2", by decide, by decide⟩
      · simp at hu
  exact ⟨(c6_dedup_max_sort fuzzyGo ["anna", "anne"] [anneObj, annaObj] huid).1,
    (c6_dedup_max_sort fuzzyGo ["anna", "anne"] [anneObj, annaObj] huid).2.2⟩

end MedJournal
